import Mathlib

/-!
Shallow embedding of `mindnlp/models/xlm/xlm.py` (the XLM transformer
implementation) and proofs about its mask builder, attention block, head
pruning, chunked feed-forward, encoder stack cache bookkeeping and
prediction head.

Modelling conventions:
* Tensors are nested lists of rationals (`ℚ` stands in for the float dtype;
  exactness of float arithmetic is not at issue in any claim below).
* Numerical primitives that the source delegates to the MindSpore runtime
  (`math.sqrt`, `ops.softmax`, `ops.dropout`, GELU, `ops.cross_entropy`)
  are opaque parameters, collected in a `Prims` record.  Every theorem
  either holds for all instantiations or instantiates them explicitly.
* Python `assert` failures, raised `ValueError`s, out-of-range tensor
  indexing and division by zero are modelled by `Option`/`Except` failure.
-/

set_option maxHeartbeats 1600000
set_option synthInstance.maxSize 1024
set_option synthInstance.maxHeartbeats 1000000

namespace XLM

abbrev Vec := List ℚ
abbrev Mat := List Vec
abbrev Tensor3 := List Mat
abbrev Tensor4 := List Tensor3

/-- Dot product of two vectors (model of a row of a matrix product). -/
def dot (a b : Vec) : ℚ := (List.zipWith (· * ·) a b).sum

/-- `mindspore.nn.Dense`: weight is (out_features, in_features), `y = x Wᵀ + b`. -/
structure Dense where
  weight : Mat
  bias : Vec
deriving DecidableEq, Repr

/-- Apply a `nn.Dense` layer to one vector along the last tensor axis. -/
def denseApply (d : Dense) (x : Vec) : Vec :=
  List.zipWith (fun r bi => dot r x + bi) d.weight d.bias

/-- `nn.Dense` on a (length, dim) tensor: applied to each position vector. -/
def dense2 (d : Dense) (x : Mat) : Mat := x.map (denseApply d)

/-- `nn.Dense` on a (batch, length, dim) tensor. -/
def dense3 (d : Dense) (x : Tensor3) : Tensor3 := x.map (dense2 d)

/-- `t.shape[1]` of a (batch, length, ...) tensor (rectangular by invariant). -/
def size1 {α : Type} (t : List (List α)) : ℕ := (t.headD []).length

/-- `np.finfo(np.float32).min`, the value `masked_fill` is called with when
the score dtype is float32: `-(2^128 - 2^104)`. -/
def float32Min : ℚ := -(2 ^ 128 - 2 ^ 104)

/-- Model of a Python `assert` / precondition check: `none` when it fails. -/
def assertC (p : Prop) [Decidable p] : Option Unit :=
  if p then some () else none

/-- The attention mask returned by `get_masks` is 2-dimensional
(the padding mask itself) when `causal` is false and 3-dimensional when
`causal` is true; `MultiHeadAttention.construct` branches on `mask.dim()`. -/
inductive AttnMask where
  | dim2 (m : List (List Bool))
  | dim3 (m : List (List (List Bool)))
deriving DecidableEq, Repr

/-- `get_masks(slen, lengths, causal, padding_mask)`.

Returns `none` when one of the source's `assert` statements fails
(`lengths.max() <= slen`, `mask.shape == (bs, slen)`). -/
def getMasks (slen : ℕ) (lengths : List ℕ) (causal : Bool)
    (padding_mask : Option (List (List Bool))) :
    Option (List (List Bool) × AttnMask) := do
  let alen := List.range slen
  let mask ← match padding_mask with
    | some pm => pure pm
    | none => do
        -- assert lengths.max() <= slen
        let _ ← assertC (lengths.foldr max 0 ≤ slen)
        pure (lengths.map (fun L => alen.map (fun t => decide (t < L))))
  let bs := lengths.length
  -- causal: alen[None, None, :].repeat(bs, slen, 1) <= alen[None, :, None]
  let attn_mask : AttnMask :=
    if causal then
      .dim3 ((List.range bs).map (fun _ =>
        alen.map (fun i => alen.map (fun j => decide (j ≤ i)))))
    else
      .dim2 mask
  -- assert mask.shape == (bs, slen)
  let _ ← assertC (mask.length = bs ∧ ∀ r ∈ mask, r.length = slen)
  pure (mask, attn_mask)

/-- Entry `(b, i, j)` of a 3-dimensional attention mask, if present. -/
def attnAt3 (r : Option (List (List Bool) × AttnMask)) (b i j : ℕ) : Option Bool :=
  match r with
  | some (_, .dim3 m) => some (((m.getD b []).getD i []).getD j false)
  | _ => none

/-! ### Helper lemmas -/

theorem foldr_max_le {l : List ℕ} {S : ℕ} (h : ∀ x ∈ l, x ≤ S) :
    l.foldr max 0 ≤ S := by
  induction l with
  | nil => simp
  | cons a l ih =>
      simp only [List.foldr_cons, max_le_iff]
      exact ⟨h a (by simp), ih fun x hx => h x (List.mem_cons_of_mem _ hx)⟩

theorem getD_map_lt {α β : Type} (f : α → β) (l : List α) (b : ℕ)
    (hb : b < l.length) (d : β) (d' : α) :
    (l.map f).getD b d = f (l.getD b d') := by
  rw [List.getD_eq_getElem?_getD, List.getD_eq_getElem?_getD,
    List.getElem?_map, List.getElem?_eq_getElem hb]
  rfl

theorem getD_range_lt {n t : ℕ} (h : t < n) : (List.range n).getD t 0 = t := by
  rw [List.getD_eq_getElem?_getD, List.getElem?_eq_getElem (by simpa using h)]
  simp

theorem getD_replicate_lt {α : Type} {n b : ℕ} (a : α) (d : α) (h : b < n) :
    (List.replicate n a).getD b d = a := by
  rw [List.getD_eq_getElem?_getD, List.getElem?_eq_getElem (by simpa using h)]
  simp

/-- Shape of the no-padding-mask branch of `get_masks`: the computed padding
mask together with both `assert`s passing. -/
theorem getMasks_eq_of_max_le {S : ℕ} {L : List ℕ} {causal : Bool}
    (hmax : ∀ x ∈ L, x ≤ S) :
    getMasks S L causal none =
      some (L.map (fun len => (List.range S).map (fun t => decide (t < len))),
        if causal then
          .dim3 (List.replicate L.length
            ((List.range S).map (fun i =>
              (List.range S).map (fun j => decide (j ≤ i)))))
        else
          .dim2 (L.map (fun len =>
            (List.range S).map (fun t => decide (t < len))))) := by
  have h1 : L.foldr max 0 ≤ S := foldr_max_le hmax
  have h3 : ∀ r ∈ L.map (fun len => (List.range S).map
      (fun t => decide (t < len))), r.length = S := by
    intro r hr
    rcases List.mem_map.mp hr with ⟨len, _, rfl⟩
    simp
  simp [getMasks, assertC, h1, h3]

/-- C4: with no external padding mask, the padding mask of `get_masks` is
true at `(b, t)` iff `t < L[b]`; and the concrete scenario `S = 5`,
`L = [3, 5]` yields rows `[T,T,T,F,F]` and `[T,T,T,T,T]`. -/
theorem c4_padding_mask (L : List ℕ) (S b t : ℕ) (causal : Bool)
    (hb : b < L.length) (ht : t < S) (hmax : ∀ x ∈ L, x ≤ S) :
    (∃ m a, getMasks S L causal none = some (m, a) ∧
      (m.getD b []).getD t false = decide (t < L.getD b 0)) ∧
    (getMasks 5 [3, 5] false none).map Prod.fst =
      some [[true, true, true, false, false],
            [true, true, true, true, true]] := by
  constructor
  · refine ⟨_, _, getMasks_eq_of_max_le hmax, ?_⟩
    rw [getD_map_lt _ _ _ hb _ 0, getD_map_lt _ _ _ (by simpa using ht) _ 0,
      getD_range_lt ht]
  · decide

theorem c4_padding_mask_witness :
    (∃ m a, getMasks 5 [3, 5] false none = some (m, a) ∧
      (m.getD 0 []).getD 3 false = decide (3 < [3, 5].getD 0 0)) ∧
    (getMasks 5 [3, 5] false none).map Prod.fst =
      some [[true, true, true, false, false],
            [true, true, true, true, true]] :=
  c4_padding_mask [3, 5] 5 0 3 false (by decide) (by decide) (by decide)

/-- C2 counterexample: for `slen = 2`, `lengths = [1]`, causal, the code's
attention mask at `(b, i, j) = (0, 1, 1)` is `true` although position
`j = 1` is a padding position (`1 < lengths[0]` fails), so
`attend(b,i,j) = (j ≤ i) AND valid(b,j)` does not hold: the code never
combines the causal triangle with the padding mask. -/
theorem c2_counterexample :
    attnAt3 (getMasks 2 [1] true none) 0 1 1 = some true ∧
    decide ((1 : ℕ) ≤ 1 ∧ 1 < [1].getD 0 0) = false := by decide

/-- C2 (amended): when causal, the attention mask returned by `get_masks`
satisfies `attend(b,i,j) = (j ≤ i)` — the lower-triangular condition alone,
with no padding-validity conjunct. -/
theorem c2_causal_mask (L : List ℕ) (S b i j : ℕ)
    (hb : b < L.length) (hi : i < S) (hj : j < S) (hmax : ∀ x ∈ L, x ≤ S) :
    ∃ m a3, getMasks S L true none = some (m, .dim3 a3) ∧
      ((a3.getD b []).getD i []).getD j false = decide (j ≤ i) := by
  refine ⟨_, _, by simpa using @getMasks_eq_of_max_le S L true hmax, ?_⟩
  rw [getD_replicate_lt _ _ hb,
    getD_map_lt _ _ _ (by simpa using hi) _ 0,
    getD_map_lt _ _ _ (by simpa using hj) _ 0,
    getD_range_lt hi, getD_range_lt hj]

theorem c2_causal_mask_witness :
    ∃ m a3, getMasks 2 [2] true none = some (m, .dim3 a3) ∧
      ((a3.getD 0 []).getD 1 []).getD 0 false = decide ((0 : ℕ) ≤ 1) :=
  c2_causal_mask [2] 2 0 1 0 (by decide) (by decide) (by decide) (by decide)

/-! ### Opaque numerical primitives of the MindSpore runtime -/

/-- Numerical primitives the source delegates to the framework
(`math.sqrt`, `ops.softmax`, GELU, `ops.dropout`, `ops.cross_entropy`).
`dropoutF` is a deterministic stand-in for the random dropout primitive;
every claim below runs in evaluation mode, where the source skips it. -/
structure Prims where
  sqrtF : ℚ → ℚ
  softmaxF : Vec → Vec
  geluF : ℚ → ℚ
  dropoutF : ℚ → ℚ → ℚ
  crossEntropyF : Mat → List ℕ → ℚ

/-! ### `apply_chunking_to_forward` (xlm.py lines 133-209) and
`TransformerFFN` (lines 648-673) -/

/-- Split a list into `n` consecutive chunks of size `sz`
(model of `Tensor.chunk(n, dim)` under exact divisibility). -/
def chunksOf {α : Type} (n sz : ℕ) (l : List α) : List (List α) :=
  match n with
  | 0 => []
  | n + 1 => l.take sz :: chunksOf n sz (l.drop sz)

/-- Chunk a (batch, length, dim) tensor along axis 1 into `n` tensors. -/
def chunkDim1 (n sz : ℕ) (x : Tensor3) : List Tensor3 :=
  (List.range n).map (fun i => x.map (fun row => (chunksOf n sz row).getD i []))

/-- `ops.cat(ts, axis=1)` for (batch, length, dim) tensors. -/
def catDim1 (ts : List Tensor3) : Tensor3 :=
  (List.range (size1 ts)).map (fun b => (ts.map (fun t => t.getD b [])).flatten)

/-- `apply_chunking_to_forward(forward_fn, chunk_size, chunk_dim=1, input)`
specialised to its only call site (`TransformerFFN.construct`): a single
input tensor and `chunk_dim = 1`.  The `inspect.signature` arity check and
the equal-shape loop over the input tensors pass trivially for one tensor.
Raised `ValueError`s are modelled by `Except.error`. -/
def applyChunking (forward_fn : Tensor3 → Tensor3) (chunk_size : ℕ)
    (x : Tensor3) : Except String Tensor3 :=
  if 0 < chunk_size then
    if size1 x % chunk_size ≠ 0 then
      .error "The dimension to be chunked has to be a multiple of the chunk size"
    else
      let num_chunks := size1 x / chunk_size
      -- Tensor.chunk validates that the number of chunks is positive
      if num_chunks = 0 then .error "chunks must be greater than 0"
      else .ok (catDim1 ((chunkDim1 num_chunks chunk_size x).map forward_fn))
  else
    .ok (forward_fn x)

/-- State of a `TransformerFFN` module. -/
structure FFNParams where
  lin1 : Dense
  lin2 : Dense
  gelu_activation : Bool
  dropout : ℚ
  chunk_size_feed_forward : ℕ
deriving DecidableEq, Repr

/-- `nn.GELU()` or `nn.ReLU()` depending on `config.gelu_activation`. -/
def actApply (P : Prims) (gelu : Bool) (x : ℚ) : ℚ :=
  if gelu then P.geluF x else max x 0

/-- `TransformerFFN.ff_chunk`. -/
def ffChunk (P : Prims) (f : FFNParams) (training : Bool) (input : Tensor3) :
    Tensor3 :=
  let x := dense3 f.lin1 input
  let x := x.map (fun m => m.map (fun v => v.map (actApply P f.gelu_activation)))
  let x := dense3 f.lin2 x
  if training then
    x.map (fun m => m.map (fun v => v.map (P.dropoutF f.dropout)))
  else x

/-- `TransformerFFN.construct`. -/
def ffnConstruct (P : Prims) (f : FFNParams) (training : Bool)
    (input : Tensor3) : Except String Tensor3 :=
  applyChunking (ffChunk P f training) f.chunk_size_feed_forward input

/-! ### Chunking lemmas -/

theorem chunksOf_length {α : Type} (n sz : ℕ) (l : List α) :
    (chunksOf n sz l).length = n := by
  induction n generalizing l with
  | zero => rfl
  | succ n ih => simp [chunksOf, ih]

theorem chunksOf_join {α : Type} (n sz : ℕ) (l : List α)
    (h : l.length = n * sz) : (chunksOf n sz l).flatten = l := by
  induction n generalizing l with
  | zero =>
      simp only [Nat.zero_mul] at h
      simp [chunksOf, List.length_eq_zero.mp h]
  | succ n ih =>
      simp only [chunksOf, List.flatten_cons]
      rw [ih (l.drop sz) (by simp [h, Nat.succ_mul])]
      exact List.take_append_drop sz l

theorem map_getD_range {α : Type} (l : List α) (n : ℕ) (d : α)
    (h : l.length = n) :
    (List.range n).map (fun i => l.getD i d) = l := by
  apply List.ext_getElem (by simp [h])
  intro i h1 h2
  have hi : i < n := by simpa using h1
  simp [List.getD_eq_getElem?_getD, List.getElem?_eq_getElem (h ▸ hi)]

theorem flatten_map_map {α β : Type} (g : α → β) (L : List (List α)) :
    (L.map (fun l => l.map g)).flatten = L.flatten.map g := by
  induction L with
  | nil => rfl
  | cons a L ih =>
      simp only [List.map_cons, List.flatten_cons, List.map_append, ih]

/-- `ff_chunk` in evaluation mode is a per-position map. -/
theorem ffChunk_eval_eq_map (P : Prims) (f : FFNParams) (x : Tensor3) :
    ffChunk P f false x = x.map (fun row => row.map (fun v =>
      denseApply f.lin2 ((denseApply f.lin1 v).map
        (actApply P f.gelu_activation)))) := by
  simp [ffChunk, dense3, dense2, List.map_map]

/-- Chunk-apply-concatenate recovers the direct application for any
per-position forward function. -/
theorem catDim1_chunk_map (g : Vec → Vec) (n sz : ℕ) (x : Tensor3)
    (hn : 0 < n)
    (hrect : ∀ r ∈ x, r.length = n * sz) :
    catDim1 ((chunkDim1 n sz x).map
        (fun t => t.map (fun row => row.map g))) =
      x.map (fun row => row.map g) := by
  have hsize : size1 ((chunkDim1 n sz x).map
      (fun t => t.map (fun row => row.map g))) = x.length := by
    obtain ⟨m, rfl⟩ := Nat.exists_eq_succ_of_ne_zero hn.ne'
    simp only [chunkDim1, size1, List.range_succ_eq_map, List.map_cons,
      List.headD_cons, List.length_map]
  rw [catDim1, hsize]
  have step : ∀ b ∈ List.range x.length,
      ((((chunkDim1 n sz x).map (fun t => t.map (fun row => row.map g))).map
        (fun t => t.getD b [])).flatten) = (x.getD b []).map g := by
    intro b hb
    have hbx : b < x.length := List.mem_range.mp hb
    have hmem : x.getD b [] ∈ x := by
      rw [List.getD_eq_getElem x [] hbx]
      exact x.getElem_mem hbx
    have hxb : (x.getD b []).length = n * sz := hrect _ hmem
    rw [List.map_map, chunkDim1, List.map_map]
    have e1 : ∀ i ∈ List.range n,
        (((fun t => t.getD b []) ∘ (fun t => t.map (fun row => row.map g))) ∘
          (fun i => x.map (fun row => (chunksOf n sz row).getD i []))) i =
        ((chunksOf n sz (x.getD b [])).getD i []).map g := by
      intro i _
      simp only [Function.comp_apply, List.map_map]
      rw [getD_map_lt _ _ _ hbx _ []]
      rfl
    rw [List.map_congr_left e1]
    have e2 : (List.range n).map
        (fun i => ((chunksOf n sz (x.getD b [])).getD i []).map g) =
        ((List.range n).map
          (fun i => (chunksOf n sz (x.getD b [])).getD i [])).map
            (fun c => c.map g) := by
      rw [List.map_map]
      rfl
    rw [e2, map_getD_range _ _ _ (chunksOf_length n sz _), flatten_map_map,
      chunksOf_join _ _ _ hxb]
  rw [List.map_congr_left step]
  have final : (List.range x.length).map (fun b => (x.getD b []).map g) =
      ((List.range x.length).map (fun b => x.getD b [])).map
        (fun r => r.map g) := by
    rw [List.map_map]
    rfl
  rw [final, map_getD_range x x.length [] rfl]

/-- C5: for every input (with a rectangular, non-empty sequence axis) and
every positive `chunk_size_feed_forward` that divides the sequence length,
the chunked `TransformerFFN.construct` in evaluation mode returns exactly
the unchunked `ff_chunk` output, chunks concatenated in original order. -/
theorem c5_chunked_ffn_equiv (P : Prims) (f : FFNParams) (x : Tensor3)
    (hc : 0 < f.chunk_size_feed_forward)
    (hdvd : f.chunk_size_feed_forward ∣ size1 x)
    (hS : 0 < size1 x)
    (hrect : ∀ r ∈ x, r.length = size1 x) :
    ffnConstruct P f false x = .ok (ffChunk P f false x) := by
  have hmod : size1 x % f.chunk_size_feed_forward = 0 := by
    obtain ⟨k, hk⟩ := hdvd
    rw [hk, Nat.mul_mod_right]
  have hn : 0 < size1 x / f.chunk_size_feed_forward :=
    Nat.div_pos (Nat.le_of_dvd hS hdvd) hc
  rw [ffnConstruct, applyChunking, if_pos hc, if_neg (by simp [hmod]),
    if_neg hn.ne']
  congr 1
  have hrect' : ∀ r ∈ x, r.length =
      (size1 x / f.chunk_size_feed_forward) * f.chunk_size_feed_forward := by
    intro r hr
    rw [hrect r hr, Nat.div_mul_cancel hdvd]
  calc catDim1 ((chunkDim1 (size1 x / f.chunk_size_feed_forward)
          f.chunk_size_feed_forward x).map (ffChunk P f false))
      = catDim1 ((chunkDim1 (size1 x / f.chunk_size_feed_forward)
          f.chunk_size_feed_forward x).map
          (fun t => t.map (fun row => row.map (fun v =>
            denseApply f.lin2 ((denseApply f.lin1 v).map
              (actApply P f.gelu_activation)))))) := by
        congr 1
        exact List.map_congr_left fun t _ => ffChunk_eval_eq_map P f t
    _ = x.map (fun row => row.map (fun v =>
          denseApply f.lin2 ((denseApply f.lin1 v).map
            (actApply P f.gelu_activation)))) :=
        catDim1_chunk_map _ _ _ _ hn hrect'
    _ = ffChunk P f false x := (ffChunk_eval_eq_map P f x).symm

theorem c5_chunked_ffn_equiv_witness :
    ∃ P : Prims, ffnConstruct P
        ⟨⟨[[1]], [0]⟩, ⟨[[1]], [0]⟩, false, 0, 2⟩ false
        [[[1], [2], [3], [4]]] =
      .ok (ffChunk P ⟨⟨[[1]], [0]⟩, ⟨[[1]], [0]⟩, false, 0, 2⟩ false
        [[[1], [2], [3], [4]]]) :=
  ⟨⟨id, id, id, fun _ => id, fun _ _ => 0⟩,
    c5_chunked_ffn_equiv _ _ _ (by decide) (by decide) (by decide)
      (by decide)⟩

/-- C8: a positive chunk size that does not divide the sequence-axis length
makes the chunked feed-forward fail with a descriptive `ValueError`. -/
theorem c8_chunking_error (P : Prims) (f : FFNParams) (training : Bool)
    (x : Tensor3) (hc : 0 < f.chunk_size_feed_forward)
    (hndvd : ¬ f.chunk_size_feed_forward ∣ size1 x) :
    ffnConstruct P f training x =
      .error "The dimension to be chunked has to be a multiple of the chunk size" := by
  have hmod : size1 x % f.chunk_size_feed_forward ≠ 0 := fun h =>
    hndvd (Nat.dvd_of_mod_eq_zero h)
  rw [ffnConstruct, applyChunking, if_pos hc, if_pos hmod]

theorem c8_chunking_error_witness :
    ∃ P : Prims, ffnConstruct P
        ⟨⟨[[1]], [0]⟩, ⟨[[1]], [0]⟩, false, 0, 2⟩ false [[[1], [2], [3]]] =
      .error "The dimension to be chunked has to be a multiple of the chunk size" :=
  ⟨⟨id, id, id, fun _ => id, fun _ _ => 0⟩,
    c8_chunking_error _ _ _ _ (by decide) (by decide)⟩

/-! ### Head pruning: `find_pruneable_heads_and_indices` (xlm.py lines
45-69), `prune_linear_layer` (lines 97-130) and
`MultiHeadAttention.prune_heads` (lines 305-321) -/

/-- The remap of xlm.py line 65: shift a requested head index left by the
number of already-pruned indices below it. -/
def shiftIdx (already_pruned : Finset ℕ) (head : ℕ) : ℕ :=
  head - (already_pruned.filter (· < head)).card

/-- `find_pruneable_heads_and_indices`.  The Python loop iterates over a
set in unspecified order; each iteration zeroes a distinct mask row, so the
result is order independent and we iterate in increasing order.  Returns
the fresh heads and the flat indices kept by the boolean mask. -/
def findPruneableHeadsAndIndices (heads : List ℕ) (n_heads head_size : ℕ)
    (already_pruned_heads : Finset ℕ) : Finset ℕ × List ℕ :=
  let mask0 : List (List Bool) :=
    List.replicate n_heads (List.replicate head_size true)
  let fresh : Finset ℕ := heads.toFinset \ already_pruned_heads
  let mask := (fresh.sort (· ≤ ·)).foldl
    (fun m h => m.set (shiftIdx already_pruned_heads h)
      (List.replicate head_size false)) mask0
  let flat := mask.flatten
  let index := (List.range flat.length).filter (fun p => flat.getD p false)
  (fresh, index)

/-- `prune_linear_layer(layer, index)` with `dim = 0`: keep the rows of the
weight (and entries of the bias) listed in `index`. -/
def pruneLinearLayer0 (layer : Dense) (index : List ℕ) : Dense :=
  ⟨index.map (fun i => layer.weight.getD i []),
   index.map (fun i => layer.bias.getD i 0)⟩

/-- `prune_linear_layer(layer, index, dim=1)`: keep the columns of the
weight listed in `index`; the bias is copied unchanged. -/
def pruneLinearLayer1 (layer : Dense) (index : List ℕ) : Dense :=
  ⟨layer.weight.map (fun row => index.map (fun i => row.getD i 0)),
   layer.bias⟩

/-- State of a `MultiHeadAttention` module. -/
structure MHA where
  layer_id : ℕ
  dim : ℕ
  n_heads : ℕ
  dropout : ℚ
  q_lin : Dense
  k_lin : Dense
  v_lin : Dense
  out_lin : Dense
  pruned_heads : Finset ℕ
deriving DecidableEq

/-- `MultiHeadAttention.prune_heads`.

`none` models the `ZeroDivisionError` of `self.dim // self.n_heads` (which
runs before the empty-input early return) when every head has already been
pruned, and the out-of-range tensor write `mask[head] = 0` inside
`find_pruneable_heads_and_indices` when a shifted index is not a valid
mask row. -/
def pruneHeads (self : MHA) (heads : List ℕ) : Option MHA :=
  if self.n_heads = 0 then none
  else
    let attention_head_size := self.dim / self.n_heads
    if heads = [] then some self
    else
      let fresh := heads.toFinset \ self.pruned_heads
      if ¬ (∀ h ∈ fresh, shiftIdx self.pruned_heads h < self.n_heads) then
        none
      else
        let fi := findPruneableHeadsAndIndices heads self.n_heads
          attention_head_size self.pruned_heads
        some { self with
          q_lin := pruneLinearLayer0 self.q_lin fi.2
          k_lin := pruneLinearLayer0 self.k_lin fi.2
          v_lin := pruneLinearLayer0 self.v_lin fi.2
          out_lin := pruneLinearLayer1 self.out_lin fi.2
          n_heads := self.n_heads - fi.1.card
          dim := attention_head_size * (self.n_heads - fi.1.card)
          pruned_heads := self.pruned_heads ∪ fi.1 }

/-- The flat indices kept by pruning, described the way the spec does:
position `p` survives iff its head block `p / head_size` is not the
left-shifted image of a freshly requested head. -/
def keptIndices (already_pruned : Finset ℕ) (fresh : Finset ℕ)
    (n_heads head_size : ℕ) : List ℕ :=
  (List.range (n_heads * head_size)).filter
    (fun p => decide (p / head_size ∉ fresh.image (shiftIdx already_pruned)))

/-! ### Characterising the pruning mask -/

theorem getD_set {α : Type} (l : List α) (i j : ℕ) (a d : α) :
    (l.set i a).getD j d =
      if i = j ∧ i < l.length then a else l.getD j d := by
  rw [List.getD_eq_getElem?_getD, List.getD_eq_getElem?_getD,
    List.getElem?_set]
  by_cases hij : i = j
  · subst hij
    by_cases hl : i < l.length
    · simp [hl]
    · simp [hl, List.getElem?_eq_none (Nat.le_of_not_lt hl)]
  · simp [hij]

theorem foldl_set_length {α : Type} (f : ℕ → ℕ) (z : α) (hs : List ℕ)
    (m : List α) :
    (hs.foldl (fun acc h => acc.set (f h) z) m).length = m.length := by
  induction hs generalizing m with
  | nil => rfl
  | cons a hs ih => rw [List.foldl_cons, ih, List.length_set]

theorem foldl_set_getD {α : Type} (f : ℕ → ℕ) (z : α) (hs : List ℕ)
    (m : List α) (r : ℕ) (d : α) (hr : r < m.length) :
    (hs.foldl (fun acc h => acc.set (f h) z) m).getD r d =
      if r ∈ hs.map f then z else m.getD r d := by
  induction hs generalizing m with
  | nil => simp
  | cons a hs ih =>
      rw [List.foldl_cons, ih _ (by simpa using hr)]
      by_cases hmem : r ∈ hs.map f
      · simp [hmem]
      · rw [if_neg hmem, getD_set]
        by_cases hfa : f a = r
        · simp [hfa, hr]
        · have : r ∉ (a :: hs).map f := by
            simp only [List.map_cons, List.mem_cons]
            rintro (h | h)
            · exact hfa h.symm
            · exact hmem h
          rw [if_neg (fun hc => hfa hc.1), if_neg this]

theorem foldl_set_mem {α : Type} (f : ℕ → ℕ) (z : α) (hs : List ℕ)
    (m : List α) (r : α)
    (hr : r ∈ hs.foldl (fun acc h => acc.set (f h) z) m) :
    r ∈ m ∨ r = z := by
  induction hs generalizing m with
  | nil => exact Or.inl hr
  | cons a hs ih =>
      rw [List.foldl_cons] at hr
      rcases ih _ hr with h | h
      · rcases List.mem_or_eq_of_mem_set h with h' | h'
        · exact Or.inl h'
        · exact Or.inr h'
      · exact Or.inr h

theorem flatten_length_uniform {α : Type} (rows : List (List α)) (hsz : ℕ)
    (h : ∀ r ∈ rows, r.length = hsz) :
    rows.flatten.length = rows.length * hsz := by
  induction rows with
  | nil => simp
  | cons a rows ih =>
      simp only [List.flatten_cons, List.length_append, List.length_cons]
      rw [h a (by simp), ih (fun r hr => h r (List.mem_cons_of_mem _ hr))]
      ring

theorem flatten_getD_uniform {α : Type} (rows : List (List α)) (hsz : ℕ)
    (hsz0 : 0 < hsz) (h : ∀ r ∈ rows, r.length = hsz) (p : ℕ) (d : α)
    (hp : p < rows.length * hsz) :
    rows.flatten.getD p d = (rows.getD (p / hsz) []).getD (p % hsz) d := by
  induction rows generalizing p with
  | nil => simp at hp
  | cons a rows ih =>
      have ha : a.length = hsz := h a (by simp)
      by_cases hlt : p < hsz
      · rw [Nat.div_eq_of_lt hlt, Nat.mod_eq_of_lt hlt]
        simp only [List.flatten_cons, List.getD_cons_zero, List.getD_eq_getElem?_getD]
        rw [List.getElem?_append_left (by omega)]
        simp [List.getD_eq_getElem?_getD]
      · have hge : hsz ≤ p := Nat.le_of_not_lt hlt
        have hdiv : p / hsz = (p - hsz) / hsz + 1 := by
          rw [Nat.div_eq_sub_div hsz0 hge]
        have hmod : p % hsz = (p - hsz) % hsz := Nat.mod_eq_sub_mod hge
        rw [hdiv, hmod]
        simp only [List.flatten_cons, List.getD_cons_succ]
        rw [← ih (fun r hr => h r (List.mem_cons_of_mem _ hr)) (p - hsz)
          (by simp only [List.length_cons] at hp; rw [Nat.succ_mul] at hp
              omega)]
        rw [List.getD_eq_getElem?_getD, List.getD_eq_getElem?_getD,
          List.getElem?_append_right (by omega), ha]

/-- The index tensor computed by `find_pruneable_heads_and_indices` is
exactly the list of flat positions whose head block is not a shifted fresh
head, and the returned head set is the fresh-heads set. -/
theorem findPruneable_eq (heads : List ℕ) (n hsize : ℕ) (pruned : Finset ℕ)
    (hsz0 : 0 < hsize) :
    findPruneableHeadsAndIndices heads n hsize pruned =
      (heads.toFinset \ pruned,
       keptIndices pruned (heads.toFinset \ pruned) n hsize) := by
  rw [findPruneableHeadsAndIndices]
  set fresh := heads.toFinset \ pruned with hfresh
  set z := List.replicate hsize false with hz
  set m0 := List.replicate n (List.replicate hsize true) with hm0
  set rows := (fresh.sort (· ≤ ·)).foldl
    (fun m h => m.set (shiftIdx pruned h) z) m0 with hrows
  have hlen : rows.length = n := by
    rw [hrows, foldl_set_length, hm0, List.length_replicate]
  have hrowlen : ∀ r ∈ rows, r.length = hsize := by
    intro r hr
    rcases foldl_set_mem _ _ _ _ _ hr with h | h
    · rcases List.eq_of_mem_replicate h with rfl
      exact List.length_replicate ..
    · rw [h, hz, List.length_replicate]
  have hflatlen : rows.flatten.length = n * hsize := by
    rw [flatten_length_uniform _ _ hrowlen, hlen]
  congr 1
  rw [hflatlen, keptIndices]
  apply List.filter_congr
  intro p hp
  have hpn : p < n * hsize := List.mem_range.mp hp
  have hdiv : p / hsize < n :=
    Nat.div_lt_of_lt_mul (by rw [Nat.mul_comm]; exact hpn)
  rw [flatten_getD_uniform _ _ hsz0 hrowlen _ _ (by rw [hlen]; exact hpn),
    hrows,
    foldl_set_getD _ _ _ _ _ _ (by rw [hm0, List.length_replicate]; exact hdiv)]
  by_cases hmem : p / hsize ∈ (fresh.sort (· ≤ ·)).map (shiftIdx pruned)
  · have : p / hsize ∈ fresh.image (shiftIdx pruned) := by
      rcases List.mem_map.mp hmem with ⟨h, hhm, hfh⟩
      exact Finset.mem_image.mpr ⟨h, (Finset.mem_sort _).mp hhm, hfh⟩
    simp [hmem, hz, this, getD_replicate_lt _ _ (Nat.mod_lt _ hsz0)]
  · have : p / hsize ∉ fresh.image (shiftIdx pruned) := by
      intro hcon
      rcases Finset.mem_image.mp hcon with ⟨h, hhm, hfh⟩
      exact hmem (List.mem_map.mpr ⟨h, (Finset.mem_sort _).mpr hhm, hfh⟩)
    rw [if_neg hmem, hm0,
      getD_replicate_lt _ _ hdiv,
      getD_replicate_lt _ _ (Nat.mod_lt _ hsz0)]
    simp [this]

/-- Running `prune_heads` on a non-empty all-fresh request: the four
projections are sliced by the kept indices, the head count drops by the
number of distinct fresh heads, and the original indices join the pruned
set. -/
theorem pruneHeads_run (s : MHA) (hs : List ℕ) (hne : hs ≠ [])
    (hfresh : ∀ h ∈ hs, h ∉ s.pruned_heads)
    (hvalid : ∀ h ∈ hs, shiftIdx s.pruned_heads h < s.n_heads)
    (hn0 : 0 < s.n_heads) (hsz0 : 0 < s.dim / s.n_heads) :
    pruneHeads s hs = some { s with
      q_lin := pruneLinearLayer0 s.q_lin
        (keptIndices s.pruned_heads hs.toFinset s.n_heads (s.dim / s.n_heads))
      k_lin := pruneLinearLayer0 s.k_lin
        (keptIndices s.pruned_heads hs.toFinset s.n_heads (s.dim / s.n_heads))
      v_lin := pruneLinearLayer0 s.v_lin
        (keptIndices s.pruned_heads hs.toFinset s.n_heads (s.dim / s.n_heads))
      out_lin := pruneLinearLayer1 s.out_lin
        (keptIndices s.pruned_heads hs.toFinset s.n_heads (s.dim / s.n_heads))
      n_heads := s.n_heads - hs.toFinset.card
      dim := (s.dim / s.n_heads) * (s.n_heads - hs.toFinset.card)
      pruned_heads := s.pruned_heads ∪ hs.toFinset } := by
  have hfreshset : hs.toFinset \ s.pruned_heads = hs.toFinset := by
    rw [Finset.sdiff_eq_self_iff_disjoint]
    exact Finset.disjoint_left.mpr
      (fun a ha hat => hfresh a (List.mem_toFinset.mp ha) hat)
  have hguard : ∀ h ∈ hs.toFinset \ s.pruned_heads,
      shiftIdx s.pruned_heads h < s.n_heads := by
    rw [hfreshset]
    intro h hh
    exact hvalid h (List.mem_toFinset.mp hh)
  have hfind := findPruneable_eq hs s.n_heads (s.dim / s.n_heads)
    s.pruned_heads hsz0
  simp only [pruneHeads, if_neg hn0.ne', if_neg hne,
    if_neg (not_not_intro hguard), hfind, hfreshset]
  rw [if_neg (not_not_intro
    (fun h hh => hvalid h (List.mem_toFinset.mp hh)))]

/-- C6: pruning `k` distinct fresh heads slices the four projection
matrices by exactly the flat positions whose head block is not a
left-shifted requested head (shift = count of already-pruned indices below
it), decreases `n_heads` by exactly `k` (never increasing it), and adds
the original unshifted indices to the pruned set. -/
theorem c6_prune_heads (s : MHA) (hs : List ℕ) (hne : hs ≠ [])
    (hnodup : hs.Nodup)
    (hfresh : ∀ h ∈ hs, h ∉ s.pruned_heads)
    (hvalid : ∀ h ∈ hs, shiftIdx s.pruned_heads h < s.n_heads)
    (hn0 : 0 < s.n_heads) (hsz0 : 0 < s.dim / s.n_heads) :
    ∃ s', pruneHeads s hs = some s' ∧
      s'.n_heads = s.n_heads - hs.length ∧
      s'.n_heads ≤ s.n_heads ∧
      s'.pruned_heads = s.pruned_heads ∪ hs.toFinset ∧
      s'.q_lin = pruneLinearLayer0 s.q_lin
        (keptIndices s.pruned_heads hs.toFinset s.n_heads
          (s.dim / s.n_heads)) ∧
      s'.k_lin = pruneLinearLayer0 s.k_lin
        (keptIndices s.pruned_heads hs.toFinset s.n_heads
          (s.dim / s.n_heads)) ∧
      s'.v_lin = pruneLinearLayer0 s.v_lin
        (keptIndices s.pruned_heads hs.toFinset s.n_heads
          (s.dim / s.n_heads)) ∧
      s'.out_lin = pruneLinearLayer1 s.out_lin
        (keptIndices s.pruned_heads hs.toFinset s.n_heads
          (s.dim / s.n_heads)) := by
  refine ⟨_, pruneHeads_run s hs hne hfresh hvalid hn0 hsz0, ?_,
    Nat.sub_le _ _, rfl, rfl, rfl, rfl, rfl⟩
  simp [List.toFinset_card_of_nodup hnodup]

theorem c6_prune_heads_witness :
    ∃ s', pruneHeads
        ⟨0, 2, 2, 0, ⟨[[1, 0], [0, 1]], [0, 0]⟩, ⟨[[1, 0], [0, 1]], [0, 0]⟩,
          ⟨[[1, 0], [0, 1]], [0, 0]⟩, ⟨[[1, 0], [0, 1]], [0, 0]⟩, ∅⟩ [0] =
        some s' ∧
      s'.n_heads = 2 - [0].length ∧
      s'.n_heads ≤ 2 ∧
      s'.pruned_heads = ∅ ∪ [0].toFinset ∧
      s'.q_lin = pruneLinearLayer0 ⟨[[1, 0], [0, 1]], [0, 0]⟩
        (keptIndices ∅ [0].toFinset 2 (2 / 2)) ∧
      s'.k_lin = pruneLinearLayer0 ⟨[[1, 0], [0, 1]], [0, 0]⟩
        (keptIndices ∅ [0].toFinset 2 (2 / 2)) ∧
      s'.v_lin = pruneLinearLayer0 ⟨[[1, 0], [0, 1]], [0, 0]⟩
        (keptIndices ∅ [0].toFinset 2 (2 / 2)) ∧
      s'.out_lin = pruneLinearLayer1 ⟨[[1, 0], [0, 1]], [0, 0]⟩
        (keptIndices ∅ [0].toFinset 2 (2 / 2)) :=
  c6_prune_heads
    ⟨0, 2, 2, 0, ⟨[[1, 0], [0, 1]], [0, 0]⟩, ⟨[[1, 0], [0, 1]], [0, 0]⟩,
      ⟨[[1, 0], [0, 1]], [0, 0]⟩, ⟨[[1, 0], [0, 1]], [0, 0]⟩, ∅⟩ [0]
    (by decide) (by decide) (by decide) (by decide) (by decide) (by decide)

/-! ### Idempotence facts for `prune_heads` -/

theorem pruneHeads_nil (s : MHA) (hn0 : s.n_heads ≠ 0) :
    pruneHeads s [] = some s := by
  simp [pruneHeads, hn0]

theorem keptIndices_empty (pruned : Finset ℕ) (n hsz : ℕ) :
    keptIndices pruned ∅ n hsz = List.range (n * hsz) := by
  rw [keptIndices]
  exact List.filter_eq_self.mpr (fun p _ => by simp)

theorem pruneLinearLayer0_range (d : Dense) (N : ℕ)
    (hw : d.weight.length = N) (hb : d.bias.length = N) :
    pruneLinearLayer0 d (List.range N) = d := by
  cases d with
  | mk w b =>
      simp only [pruneLinearLayer0] at *
      rw [map_getD_range w N [] hw, map_getD_range b N 0 hb]

theorem pruneLinearLayer1_range (d : Dense) (N : ℕ)
    (hw : ∀ r ∈ d.weight, r.length = N) :
    pruneLinearLayer1 d (List.range N) = d := by
  cases d with
  | mk w b =>
      simp only [pruneLinearLayer1] at *
      rw [List.map_congr_left (fun r hr => map_getD_range r N 0 (hw r hr))]
      simp

theorem filter_ne_range_length (n a : ℕ) (ha : a < n) :
    ((List.range n).filter (fun r => decide (r ≠ a))).length = n - 1 := by
  induction n with
  | zero => omega
  | succ n ih =>
      rw [List.range_succ, List.filter_append, List.length_append]
      by_cases han : a = n
      · subst han
        have h1 : (List.range a).filter (fun r => decide (r ≠ a)) =
            List.range a :=
          List.filter_eq_self.mpr (fun r hr => by
            simp [(List.mem_range.mp hr).ne])
        have h2 : [a].filter (fun r => decide (r ≠ a)) = [] := by simp
        rw [h1, h2, List.length_range, List.length_nil]
        omega
      · have ha' : a < n := by omega
        rw [ih ha']
        have h2 : ([n].filter (fun r => decide (r ≠ a))).length = 1 := by
          have hna : n ≠ a := fun he => han he.symm
          simp [hna]
        rw [h2]
        omega

theorem length_filter_div (n hsz : ℕ) (S : Finset ℕ) :
    ((List.range (n * hsz)).filter (fun p => decide (p / hsz ∉ S))).length =
      ((List.range n).filter (fun r => decide (r ∉ S))).length * hsz := by
  induction n with
  | zero => simp
  | succ n ih =>
      rw [Nat.succ_mul, List.range_add, List.filter_append,
        List.length_append, ih, List.range_succ, List.filter_append,
        List.length_append, Nat.add_mul]
      congr 1
      have hblock : ∀ j ∈ List.range hsz, (n * hsz + j) / hsz = n := by
        intro j hj
        have hj' : j < hsz := List.mem_range.mp hj
        rw [Nat.mul_comm n hsz, Nat.mul_add_div (by omega), Nat.div_eq_of_lt hj']
        omega
      by_cases hnS : n ∈ S
      · have h1 : ((List.range hsz).map (n * hsz + ·)).filter
            (fun p => decide (p / hsz ∉ S)) = [] := by
          rw [List.filter_eq_nil_iff]
          intro p hp
          rcases List.mem_map.mp hp with ⟨j, hj, rfl⟩
          simp [hblock j hj, hnS]
        have h2 : [n].filter (fun r => decide (r ∉ S)) = [] := by
          simp [hnS]
        rw [h1, h2]
        simp
      · have h1 : ((List.range hsz).map (n * hsz + ·)).filter
            (fun p => decide (p / hsz ∉ S)) =
            (List.range hsz).map (n * hsz + ·) := by
          rw [List.filter_eq_self]
          intro p hp
          rcases List.mem_map.mp hp with ⟨j, hj, rfl⟩
          simp [hblock j hj, hnS]
        have h2 : [n].filter (fun r => decide (r ∉ S)) = [n] := by
          simp [hnS]
        rw [h1, h2]
        simp

theorem keptIndices_singleton_length (pruned : Finset ℕ) (h n hsz : ℕ)
    (ha : shiftIdx pruned h < n) :
    (keptIndices pruned {h} n hsz).length = (n - 1) * hsz := by
  rw [keptIndices, Finset.image_singleton, length_filter_div]
  congr 1
  have : ∀ r ∈ List.range n,
      (decide (r ∉ ({shiftIdx pruned h} : Finset ℕ))) =
        (decide (r ≠ shiftIdx pruned h)) := by
    intro r _
    simp
  rw [List.filter_congr this, filter_ne_range_length n _ ha]

/-- A `prune_heads` call whose single requested head is already pruned is
a value-level no-op, provided the layer still has a head and its shapes
are consistent. -/
theorem pruneHeads_already_pruned (s1 : MHA) (h : ℕ)
    (hmem : h ∈ s1.pruned_heads)
    (hn0 : s1.n_heads ≠ 0)
    (hsz0 : 0 < s1.dim / s1.n_heads)
    (hdim : s1.dim = (s1.dim / s1.n_heads) * s1.n_heads)
    (hq : s1.q_lin.weight.length = s1.dim)
    (hqb : s1.q_lin.bias.length = s1.dim)
    (hk : s1.k_lin.weight.length = s1.dim)
    (hkb : s1.k_lin.bias.length = s1.dim)
    (hv : s1.v_lin.weight.length = s1.dim)
    (hvb : s1.v_lin.bias.length = s1.dim)
    (hout : ∀ r ∈ s1.out_lin.weight, r.length = s1.dim) :
    pruneHeads s1 [h] = some s1 := by
  have hfr : ([h] : List ℕ).toFinset \ s1.pruned_heads = ∅ := by
    simp [Finset.sdiff_eq_empty_iff_subset, Finset.singleton_subset_iff, hmem]
  have hfind := findPruneable_eq [h] s1.n_heads (s1.dim / s1.n_heads)
    s1.pruned_heads hsz0
  rw [hfr, keptIndices_empty] at hfind
  have hN : s1.n_heads * (s1.dim / s1.n_heads) = s1.dim := by
    rw [Nat.mul_comm]
    exact hdim.symm
  simp only [pruneHeads, if_neg hn0,
    if_neg (by simp : ¬([h] : List ℕ) = []), hfr, hfind, hN,
    if_neg (not_not_intro (fun h' hh' => absurd hh' (Finset.not_mem_empty h')))]
  rw [pruneLinearLayer0_range _ _ hq hqb, pruneLinearLayer0_range _ _ hk hkb,
    pruneLinearLayer0_range _ _ hv hvb, pruneLinearLayer1_range _ _ hout]
  simp only [Finset.card_empty, Nat.sub_zero, Finset.union_empty]
  rw [← hdim]

/-- C7 counterexample: on a layer with a single head, pruning head 0 twice
is not a no-op — the second call (and even a later empty-list call) hits
`attention_head_size = self.dim // self.n_heads` with `n_heads == 0` and
raises `ZeroDivisionError` instead of leaving the state unchanged. -/
theorem c7_counterexample :
    (pruneHeads ⟨0, 1, 1, 0, ⟨[[1]], [0]⟩, ⟨[[1]], [0]⟩, ⟨[[1]], [0]⟩,
        ⟨[[1]], [0]⟩, ∅⟩ [0]).isSome = true ∧
    (pruneHeads ⟨0, 1, 1, 0, ⟨[[1]], [0]⟩, ⟨[[1]], [0]⟩, ⟨[[1]], [0]⟩,
        ⟨[[1]], [0]⟩, ∅⟩ [0]).bind (fun s1 => pruneHeads s1 [0]) = none ∧
    (pruneHeads ⟨0, 1, 1, 0, ⟨[[1]], [0]⟩, ⟨[[1]], [0]⟩, ⟨[[1]], [0]⟩,
        ⟨[[1]], [0]⟩, ∅⟩ [0]).bind (fun s1 => pruneHeads s1 []) = none := by
  decide

/-- C7 (amended): on every consistent attention state that keeps at least
one head after the first prune (`2 ≤ n_heads`), pruning the same fresh
valid head twice changes state only once — the second call is a value-level
no-op — and an empty prune request is a no-op as well. -/
theorem c7_prune_idempotent (s : MHA) (h : ℕ)
    (hfresh : h ∉ s.pruned_heads)
    (hvalid : shiftIdx s.pruned_heads h < s.n_heads)
    (hn2 : 2 ≤ s.n_heads)
    (hsz0 : 0 < s.dim / s.n_heads) :
    pruneHeads s [] = some s ∧
    ∀ s1, pruneHeads s [h] = some s1 →
      pruneHeads s1 [h] = some s1 ∧ pruneHeads s1 [] = some s1 := by
  refine ⟨pruneHeads_nil s (by omega), ?_⟩
  intro s1 hs1
  have hrun := pruneHeads_run s [h] (by simp)
    (by intro h' hh'; rw [List.eq_of_mem_singleton hh']; exact hfresh)
    (by intro h' hh'; rw [List.eq_of_mem_singleton hh']; exact hvalid)
    (by omega) hsz0
  rw [hrun] at hs1
  injection hs1 with hs1
  subst hs1
  have hcard : ([h] : List ℕ).toFinset.card = 1 := by simp
  have hset : ([h] : List ℕ).toFinset = ({h} : Finset ℕ) := by simp
  have hkl : (keptIndices s.pruned_heads ([h] : List ℕ).toFinset s.n_heads
      (s.dim / s.n_heads)).length = (s.n_heads - 1) * (s.dim / s.n_heads) := by
    rw [hset, keptIndices_singleton_length _ _ _ _ hvalid]
  have hnn : s.n_heads - ([h] : List ℕ).toFinset.card = s.n_heads - 1 := by
    rw [hcard]
  have hdivr : (s.dim / s.n_heads) * (s.n_heads - ([h] : List ℕ).toFinset.card)
      / (s.n_heads - ([h] : List ℕ).toFinset.card) = s.dim / s.n_heads := by
    rw [hnn]
    exact Nat.mul_div_cancel _ (by omega)
  have hn0r : s.n_heads - ([h] : List ℕ).toFinset.card ≠ 0 := by
    rw [hcard]; omega
  constructor
  · apply pruneHeads_already_pruned _ h
    · simp
    · exact hn0r
    · show 0 < (s.dim / s.n_heads) * (s.n_heads - ([h] : List ℕ).toFinset.card)
        / (s.n_heads - ([h] : List ℕ).toFinset.card)
      rw [hdivr]; exact hsz0
    · show (s.dim / s.n_heads) * (s.n_heads - ([h] : List ℕ).toFinset.card) = _
      rw [hdivr]
    · show (pruneLinearLayer0 s.q_lin _).weight.length = _
      simp only [pruneLinearLayer0, List.length_map, hkl, hnn]
      exact Nat.mul_comm _ _
    · show (pruneLinearLayer0 s.q_lin _).bias.length = _
      simp only [pruneLinearLayer0, List.length_map, hkl, hnn]
      exact Nat.mul_comm _ _
    · show (pruneLinearLayer0 s.k_lin _).weight.length = _
      simp only [pruneLinearLayer0, List.length_map, hkl, hnn]
      exact Nat.mul_comm _ _
    · show (pruneLinearLayer0 s.k_lin _).bias.length = _
      simp only [pruneLinearLayer0, List.length_map, hkl, hnn]
      exact Nat.mul_comm _ _
    · show (pruneLinearLayer0 s.v_lin _).weight.length = _
      simp only [pruneLinearLayer0, List.length_map, hkl, hnn]
      exact Nat.mul_comm _ _
    · show (pruneLinearLayer0 s.v_lin _).bias.length = _
      simp only [pruneLinearLayer0, List.length_map, hkl, hnn]
      exact Nat.mul_comm _ _
    · show ∀ r ∈ (pruneLinearLayer1 s.out_lin _).weight, r.length = _
      intro r hr
      simp only [pruneLinearLayer1, List.mem_map] at hr
      rcases hr with ⟨row, _, rfl⟩
      simp only [List.length_map, hkl, hnn]
      exact Nat.mul_comm _ _
  · exact pruneHeads_nil _ hn0r

theorem c7_prune_idempotent_witness :
    pruneHeads ⟨0, 2, 2, 0, ⟨[[1, 0], [0, 1]], [0, 0]⟩,
        ⟨[[1, 0], [0, 1]], [0, 0]⟩, ⟨[[1, 0], [0, 1]], [0, 0]⟩,
        ⟨[[1, 0], [0, 1]], [0, 0]⟩, ∅⟩ [] =
      some ⟨0, 2, 2, 0, ⟨[[1, 0], [0, 1]], [0, 0]⟩,
        ⟨[[1, 0], [0, 1]], [0, 0]⟩, ⟨[[1, 0], [0, 1]], [0, 0]⟩,
        ⟨[[1, 0], [0, 1]], [0, 0]⟩, ∅⟩ ∧
    ∀ s1, pruneHeads ⟨0, 2, 2, 0, ⟨[[1, 0], [0, 1]], [0, 0]⟩,
        ⟨[[1, 0], [0, 1]], [0, 0]⟩, ⟨[[1, 0], [0, 1]], [0, 0]⟩,
        ⟨[[1, 0], [0, 1]], [0, 0]⟩, ∅⟩ [0] = some s1 →
      pruneHeads s1 [0] = some s1 ∧ pruneHeads s1 [] = some s1 :=
  c7_prune_idempotent
    ⟨0, 2, 2, 0, ⟨[[1, 0], [0, 1]], [0, 0]⟩, ⟨[[1, 0], [0, 1]], [0, 0]⟩,
      ⟨[[1, 0], [0, 1]], [0, 0]⟩, ⟨[[1, 0], [0, 1]], [0, 0]⟩, ∅⟩ 0
    (by decide) (by decide) (by decide) (by decide)

/-! ### `MultiHeadAttention.construct` (xlm.py lines 323-385), embedded on
the self-attention path (`kv = None`) — the only path the encoder stack
exercises. -/

/-- The key/value cache: `"slen"` counter plus per-layer (keys, values)
entries, indexed by `layer_id`. -/
structure XLMCache where
  slen : ℕ
  entries : List (Option (Tensor4 × Tensor4))
deriving DecidableEq

/-- `shape(x)`: view (bs, len, dim) as (bs, len, H, dh) and transpose to
(bs, H, len, dh); head `h` takes the slice `[h*dh, (h+1)*dh)` of each
position vector. -/
def mhaShape (H dh : ℕ) (x : Tensor3) : Tensor4 :=
  x.map (fun seq => (List.range H).map (fun h =>
    seq.map (fun v => (v.drop (h * dh)).take dh)))

/-- `unshape(x)`: transpose (bs, H, len, dh) to (bs, len, H, dh) and merge
the last two axes. -/
def mhaUnshape (x : Tensor4) : Tensor3 :=
  x.map (fun bh => (List.range ((bh.headD []).length)).map (fun p =>
    (bh.map (fun hm => hm.getD p [])).flatten))

/-- `ops.cat([a, b], axis=2)` on (bs, H, len, dh) tensors. -/
def catAxis2 (a b : Tensor4) : Tensor4 :=
  List.zipWith (fun x y => List.zipWith (· ++ ·) x y) a b

/-- One (query-rows × key-rows) block of
`matmul(q, k.transpose(0,1,3,2)) / math.sqrt(dim_per_head)`. -/
def mhaScoresBH (P : Prims) (dh : ℕ) (qm km : Mat) : Mat :=
  qm.map (fun qr => km.map (fun kr => dot qr kr / P.sqrtF (dh : ℚ)))

def mhaScores4 (P : Prims) (dh : ℕ) (q k : Tensor4) : Tensor4 :=
  List.zipWith (fun qb kb => List.zipWith (mhaScoresBH P dh) qb kb) q k

/-- `matmul(weights, v)` on one (qlen × klen) by (klen × dh) block. -/
def matMulRows (wm vm : Mat) : Mat :=
  wm.map (fun wr => (List.range (size1 vm)).map (fun j =>
    (List.zipWith (fun w vrow => w * vrow.getD j 0) wr vm).sum))

def matmul4 (w v : Tensor4) : Tensor4 :=
  List.zipWith (fun wb vb => List.zipWith matMulRows wb vb) w v

/-- Elementwise product of two (broadcast-compatible) 4-d tensors
(`weights * head_mask`). -/
def mulT4 (a b : Tensor4) : Tensor4 :=
  List.zipWith (fun x y => List.zipWith (fun m n =>
    List.zipWith (fun r q => List.zipWith (· * ·) r q) m n) x y) a b

/-- `(mask == 0)` flattened in row-major order (boolean mask entries:
entry 0 means masked). -/
def attnMaskNotFlat (m : AttnMask) : List Bool :=
  match m with
  | .dim2 mm => (mm.map (fun r => r.map (fun b => !b))).flatten
  | .dim3 mm =>
      (mm.map (fun p => (p.map (fun r => r.map (fun b => !b))).flatten)).flatten

/-- `Tensor.view(bs, 1, q, k)`: fails (raises) unless the element count
matches; the singleton axis is dropped here and re-broadcast by
`expandMask`. -/
def view4Mask (bs q k : ℕ) (flat : List Bool) : Option (List (List (List Bool))) :=
  if flat.length = bs * (1 * (q * k)) then
    some ((chunksOf bs (q * k) flat).map (chunksOf q k))
  else none

/-- `expand_as(scores)` over the query axis: a singleton query axis is
broadcast to `qlen` rows. -/
def expandMask (qlen : ℕ) (mv : List (List (List Bool))) :
    List (List (List Bool)) :=
  mv.map (fun vb => if vb.length = 1 then List.replicate qlen (vb.headD []) else vb)

/-- `scores.masked_fill(mask, value)` — a PURE operation in MindSpore: it
returns a fresh tensor, and at xlm.py line 368 the source discards this
return value. -/
def maskedFill4 (scores : Tensor4) (mv : List (List (List Bool))) (v : ℚ) :
    Tensor4 :=
  scores.mapIdx (fun b sb => sb.map (fun sh => sh.mapIdx (fun i row =>
    row.mapIdx (fun j x =>
      if ((mv.getD b []).getD i []).getD j false then v else x))))

/-- Keys, values, and the written-back cache of the self-attention path
(xlm.py lines 348-364). -/
def mhaKV (self : MHA) (input : Tensor3) (cache : Option XLMCache) :
    Tensor4 × Tensor4 × Option XLMCache :=
  let dim_per_head := self.dim / self.n_heads
  let kf := mhaShape self.n_heads dim_per_head (dense3 self.k_lin input)
  let vf := mhaShape self.n_heads dim_per_head (dense3 self.v_lin input)
  match cache with
  | none => (kf, vf, none)
  | some c =>
      match c.entries.getD self.layer_id none with
      | some (kc, vc) =>
          let k := catAxis2 kc kf
          let v := catAxis2 vc vf
          (k, v, some { c with entries := c.entries.set self.layer_id (some (k, v)) })
      | none =>
          (kf, vf, some { c with
            entries := c.entries.set self.layer_id (some (kf, vf)) })

/-- The score tensor that `MultiHeadAttention.construct` passes to
`ops.softmax` (xlm.py line 371): `q·kᵀ / sqrt(dim_per_head)`, with NO mask
applied, because the `masked_fill` result of line 368 is discarded. -/
def mhaScoresToSoftmax (P : Prims) (self : MHA) (input : Tensor3)
    (cache : Option XLMCache) : Tensor4 :=
  let dim_per_head := self.dim / self.n_heads
  let q := mhaShape self.n_heads dim_per_head (dense3 self.q_lin input)
  mhaScores4 P dim_per_head q (mhaKV self input cache).1

/-- `MultiHeadAttention.construct` on the self-attention path.
Returns ((output, attention weights if requested), updated cache);
`none` models a raised error (zero heads, or a `view` size mismatch when
reshaping the mask). -/
def mhaConstruct (P : Prims) (self : MHA) (training : Bool) (input : Tensor3)
    (mask : AttnMask) (cache : Option XLMCache) (head_mask : Option Tensor4)
    (output_attentions : Bool) :
    Option ((Tensor3 × Option Tensor4) × Option XLMCache) := do
  let bs := input.length
  let qlen := size1 input
  let klen := match cache with
    | none => qlen
    | some c => c.slen + qlen
  -- dim_per_head = self.dim // n_heads raises when n_heads == 0;
  -- mhaKV and mhaScoresToSoftmax recompute it internally
  let _ ← assertC (self.n_heads ≠ 0)
  let kvc := mhaKV self input cache
  let scores := mhaScoresToSoftmax P self input cache
  -- mask = (mask == 0).view(mask_reshape).expand_as(scores)
  let mview ← match mask with
    | .dim3 _ => view4Mask bs qlen klen (attnMaskNotFlat mask)
    | .dim2 _ => view4Mask bs 1 klen (attnMaskNotFlat mask)
  -- scores.masked_fill(...): computed, then DISCARDED by the source
  let _discarded := maskedFill4 scores (expandMask qlen mview) float32Min
  let weights := scores.map (fun sb => sb.map (fun sh => sh.map P.softmaxF))
  let weights := if training then
      weights.map (fun sb => sb.map (fun sh =>
        sh.map (fun r => r.map (P.dropoutF self.dropout))))
    else weights
  let weights := match head_mask with
    | some hm => mulT4 weights hm
    | none => weights
  let context := mhaUnshape (matmul4 weights kvc.2.1)
  pure ((dense3 self.out_lin context,
    if output_attentions then some weights else none), kvc.2.2)

/-- C1 is a code bug: `masked_fill` is pure in MindSpore and line 368
discards its result, so the score matrix passed to `ops.softmax` keeps its
raw value at masked positions instead of the dtype minimum.  Concretely:
one batch, one head, one masked position (mask entry 0); the score passed
to softmax is `1`, not `float32Min`; the discarded `masked_fill` output is
the matrix the claim describes; and running the full `construct` with
`softmaxF = id` shows the attention weights are built from the unmasked
scores. -/
theorem c1_masked_scores_discarded :
    mhaScoresToSoftmax ⟨id, id, id, fun _ => id, fun _ _ => 0⟩
        ⟨0, 1, 1, 0, ⟨[[1]], [0]⟩, ⟨[[1]], [0]⟩, ⟨[[1]], [0]⟩, ⟨[[1]], [0]⟩, ∅⟩
        [[[1]]] none = [[[[1]]]] ∧
    attnMaskNotFlat (.dim2 [[false]]) = [true] ∧
    maskedFill4 [[[[1]]]] (expandMask 1 [[[true]]]) float32Min =
      [[[[float32Min]]]] ∧
    (1 : ℚ) ≠ float32Min ∧
    mhaConstruct ⟨id, id, id, fun _ => id, fun _ _ => 0⟩
        ⟨0, 1, 1, 0, ⟨[[1]], [0]⟩, ⟨[[1]], [0]⟩, ⟨[[1]], [0]⟩, ⟨[[1]], [0]⟩, ∅⟩
        false [[[1]]] (.dim2 [[false]]) none none true =
      some (([[[1]]], some [[[[1]]]]), none) := by
  refine ⟨?_, by decide, ?_, ?_, ?_⟩
  · norm_num [mhaScoresToSoftmax, mhaKV, mhaShape, dense3, dense2, denseApply,
      dot, mhaScores4, mhaScoresBH, show List.range 1 = [0] from rfl, Function.comp]
  · norm_num [maskedFill4, expandMask, List.mapIdx_cons, List.mapIdx_nil]
  · norm_num [float32Min]
  · norm_num [mhaConstruct, mhaScoresToSoftmax, mhaKV, mhaShape, dense3,
      dense2, denseApply, dot, mhaScores4, mhaScoresBH, assertC, view4Mask,
      attnMaskNotFlat, chunksOf, expandMask, maskedFill4, mhaUnshape,
      matmul4, matMulRows, size1, float32Min, Option.bind, show List.range 1 = [0] from rfl,
      Function.comp, List.mapIdx_cons, List.mapIdx_nil]

/-! ### `XLMModel.construct` (xlm.py lines 515-645)

Embedded for the encoder path the claims address: `token_type_ids`,
`head_mask` and the `output_attentions` / `output_hidden_states` /
`return_dict` flags are fixed to their `None` / `False` defaults (they do
not interact with masks, caching or the returned final hidden state). -/

/-- State of the prediction head.  `proj` is `none` when the attribute was
never created (`config.asm` true: the `nn.AdaptiveLogSoftmaxWithLoss`
branch of `__init__` is commented out as a TODO). -/
structure XLMPredLayer where
  asm : Bool
  n_words : ℕ
  pad_index : ℕ
  dim : ℕ
  proj : Option Dense
deriving DecidableEq

/-- `XLMPredLayer.__init__`: the projection is created only on the
`asm is False` path. -/
def xlmPredLayerInit (asm : Bool) (n_words pad_index emb_dim : ℕ)
    (projInit : Dense) : XLMPredLayer :=
  { asm := asm, n_words := n_words, pad_index := pad_index, dim := emb_dim,
    proj := if asm = false then some projInit else none }

/-- `XLMPredLayer.construct`.  The returned pair models the tuple:
`(some loss, scores)` for `(loss, scores)` and `(none, scores)` for
`(scores,)`.  Accessing the missing `proj` attribute (or the nonexistent
`log_prob` method of `nn.Dense`) raises, modelled by `Except.error`. -/
def xlmPredLayerConstruct (P : Prims) (self : XLMPredLayer) (x : Tensor3)
    (y : Option (List (List ℕ))) : Except String (Option ℚ × Tensor3) :=
  if self.asm = false then
    match self.proj with
    | none => .error "AttributeError: XLMPredLayer object has no attribute proj"
    | some proj =>
        let scores := dense3 proj x
        match y with
        | none => .ok (none, scores)
        | some yv =>
            .ok (some (P.crossEntropyF scores.flatten yv.flatten), scores)
  else
    -- scores = self.proj.log_prob(x): `proj` was never created on this path
    match self.proj with
    | none => .error "AttributeError: XLMPredLayer object has no attribute proj"
    | some _ => .error "AttributeError: Dense object has no attribute log_prob"

/-- C10: a prediction head built with `asm = true` has no `proj`
attribute, so every `construct` call on it fails with an attribute error;
the `asm = false` head returns `(loss, scores)` when targets are given and
`(scores,)` otherwise. -/
theorem c10_asm_unimplemented (P : Prims) (n_words pad_index emb_dim : ℕ)
    (projInit : Dense) (x : Tensor3) (y : Option (List (List ℕ))) :
    (xlmPredLayerInit true n_words pad_index emb_dim projInit).proj = none ∧
    xlmPredLayerConstruct P
        (xlmPredLayerInit true n_words pad_index emb_dim projInit) x y =
      .error "AttributeError: XLMPredLayer object has no attribute proj" ∧
    xlmPredLayerConstruct P
        (xlmPredLayerInit false n_words pad_index emb_dim projInit) x y =
      .ok (y.map (fun yv =>
          P.crossEntropyF (dense3 projInit x).flatten yv.flatten),
        dense3 projInit x) := by
  refine ⟨rfl, rfl, ?_⟩
  cases y with
  | none => rfl
  | some yv => rfl

end XLM
